import Mathlib

/-!
Shallow embedding of the wealth-analytics dashboard calculators (src/app.py):
the SIP projector loop (tab 1), the Monte Carlo path construction and summary
statistics (tab 2), the cost-of-delay computation (tab 3) and the goal-gap
computation (tab 4). Monetary quantities and rates are modelled as rationals;
a Python ZeroDivisionError is modelled as `none`.
-/

/-- One emitted row of the SIP projector: the dict appended each month of the
tab-1 loop (fields Month, Invested, Portfolio Value, Real Value). -/
structure SipRow where
  month : ℕ
  invested : ℚ
  value : ℚ
  realValue : ℚ
deriving Repr, DecidableEq

/-- `inflation_rate = 6.0 if inflation_adj else 0.0` (tab 1). -/
def inflationRate (inflationAdj : Bool) : ℚ := if inflationAdj then 6 else 0

/-- State of the tab-1 SIP monthly loop after `m` iterations:
`total_invested`, `current_value`, and the rows emitted so far. Each month:
`total_invested += monthly_inv`, `interest = current_value * monthly_rate`,
`current_value += monthly_inv + interest`,
`real_value = current_value / (1 + inflation_rate/100/12) ** m`.
`returnRate` and `infl` are annual percent rates; `monthly_rate = returnRate/100/12`. -/
def sipLoop (monthlyInv returnRate infl : ℚ) : ℕ → ℚ × ℚ × List SipRow
  | 0 => (0, 0, [])
  | m + 1 =>
    let s := sipLoop monthlyInv returnRate infl m
    let totalInvested := s.1 + monthlyInv
    let interest := s.2.1 * (returnRate / 100 / 12)
    let currentValue := s.2.1 + monthlyInv + interest
    let realValue := currentValue / (1 + infl / 100 / 12) ^ (m + 1)
    (totalInvested, currentValue,
      s.2.2 ++ [⟨m + 1, totalInvested, currentValue, realValue⟩])

/-- `total_invested` after `m` months of the tab-1 loop. -/
def sipInvested (monthlyInv returnRate infl : ℚ) (m : ℕ) : ℚ :=
  (sipLoop monthlyInv returnRate infl m).1

/-- `current_value` after `m` months of the tab-1 loop. -/
def sipValue (monthlyInv returnRate infl : ℚ) (m : ℕ) : ℚ :=
  (sipLoop monthlyInv returnRate infl m).2.1

/-- The rows emitted by the first `m` months of the tab-1 loop. -/
def sipRows (monthlyInv returnRate infl : ℚ) (m : ℕ) : List SipRow :=
  (sipLoop monthlyInv returnRate infl m).2.2

/-- `monthly_mean = mc_avg_return / 100 / 12` (tab 2). -/
def monthlyMean (avgReturn : ℚ) : ℚ := avgReturn / 100 / 12

/-- `monthly_std = mc_volatility / 100 / (12 ** 0.5)` (tab 2). -/
noncomputable def monthlyStd (volatility : ℝ) : ℝ := volatility / 100 / Real.sqrt 12

/-- The tab-2 inner loop body iterated over the drawn returns:
`curr = (curr + mc_inv) * (1 + ret)`, each new value appended to the path.
Returns the path entries after the initial `[0]`. -/
def mcPathAux (mcInv : ℚ) (curr : ℚ) : List ℚ → List ℚ
  | [] => []
  | ret :: rs =>
    let c := (curr + mcInv) * (1 + ret)
    c :: mcPathAux mcInv c rs

/-- `portfolio_path`: starts at `[0]`, then one entry per drawn monthly return. -/
def mcPath (mcInv : ℚ) (rets : List ℚ) : List ℚ := 0 :: mcPathAux mcInv 0 rets

/-- `curr` after the tab-2 inner loop: the terminal value appended to
`final_values`. -/
def mcFinal (mcInv : ℚ) (rets : List ℚ) : ℚ :=
  rets.foldl (fun curr ret => (curr + mcInv) * (1 + ret)) 0

/-- Python `min` over a list of values (`min(final_values)`); 0 on the empty
list, which Python never reaches (50 simulations). -/
def pyMin : List ℚ → ℚ
  | [] => 0
  | x :: xs => xs.foldl min x

/-- Python `max` over a list of values (`max(final_values)`). -/
def pyMax : List ℚ → ℚ
  | [] => 0
  | x :: xs => xs.foldl max x

/-- `np.median(final_values)`: sort ascending; an odd count takes the middle
element, an even count averages the two middle elements. -/
def npMedian (l : List ℚ) : ℚ :=
  let s := List.insertionSort (· ≤ ·) l
  if l.length % 2 = 1 then s.getD (l.length / 2) 0
  else (s.getD (l.length / 2 - 1) 0 + s.getD (l.length / 2) 0) / 2

/-- The annuity-due future value written inline in tabs 3 and 4:
`inv * ((((1 + rate) ** n) - 1) / rate) * (1 + rate)`.
Python raises ZeroDivisionError when `rate = 0`, and when `1 + rate = 0` with a
negative exponent; those evaluations are modelled as `none`. -/
def fvAnnuityDue (contribution rate : ℚ) (n : ℤ) : Option ℚ :=
  if rate = 0 then none
  else if 1 + rate = 0 ∧ n < 0 then none
  else some (contribution * (((1 + rate) ^ n - 1) / rate) * (1 + rate))

/-- Tab 3: `rate = delay_ret / 100 / 12`, `corpus_a` over `delay_duration * 12`
months, `corpus_b` over `(delay_duration - delay_years) * 12` months,
`loss = corpus_a - corpus_b`. No input validation is performed. -/
def computeDelayCost (delayInv delayRet : ℚ) (duration delay : ℤ) :
    Option (ℚ × ℚ × ℚ) :=
  let rate := delayRet / 100 / 12
  match fvAnnuityDue delayInv rate (duration * 12),
        fvAnnuityDue delayInv rate ((duration - delay) * 12) with
  | some corpusA, some corpusB => some (corpusA, corpusB, corpusA - corpusB)
  | _, _ => none

/-- Tab 4: `future_cost = current_cost * (1 + item_inflation/100) ** years_to_buy`,
`future_savings` by the annuity-due formula at `goal_return / 100 / 12` over
`years_to_buy * 12` months, `gap = future_savings - future_cost`, and the
affordability verdict `gap >= 0`. -/
def computeGoalGap (currentCost : ℚ) (yearsToBuy : ℤ)
    (itemInflation monthlySavings goalReturn : ℚ) : Option (ℚ × ℚ × ℚ × Bool) :=
  let futureCost := currentCost * (1 + itemInflation / 100) ^ yearsToBuy
  let monthlyRate := goalReturn / 100 / 12
  (fvAnnuityDue monthlySavings monthlyRate (yearsToBuy * 12)).map
    (fun futureSavings =>
      (futureCost, futureSavings, futureSavings - futureCost,
        decide (0 ≤ futureSavings - futureCost)))

/-- The SIP portfolio-value recurrence on its own: `value_0 = 0`,
`value_{m+1} = value_m * (1 + monthlyRate) + contribution`. -/
def sipVal (contribution monthlyRate : ℚ) : ℕ → ℚ
  | 0 => 0
  | m + 1 => sipVal contribution monthlyRate m * (1 + monthlyRate) + contribution

lemma sipLoop_fst (inv r infl : ℚ) (m : ℕ) : (sipLoop inv r infl m).1 = m * inv := by
  induction m with
  | zero => simp [sipLoop]
  | succ k ih =>
    simp only [sipLoop, ih]
    push_cast
    ring

lemma sipLoop_snd (inv r infl : ℚ) (m : ℕ) :
    (sipLoop inv r infl m).2.1 = sipVal inv (r / 100 / 12) m := by
  induction m with
  | zero => simp [sipLoop, sipVal]
  | succ k ih =>
    simp only [sipLoop, sipVal, ih]
    ring

lemma sipLoop_rows (inv r infl : ℚ) (m : ℕ) :
    (sipLoop inv r infl m).2.2 = (List.range m).map (fun k =>
      ⟨k + 1, ((k : ℚ) + 1) * inv, sipVal inv (r / 100 / 12) (k + 1),
        sipVal inv (r / 100 / 12) (k + 1) / (1 + infl / 100 / 12) ^ (k + 1)⟩) := by
  induction m with
  | zero => simp [sipLoop]
  | succ k ih =>
    rw [List.range_succ, List.map_append]
    simp only [sipLoop, ih, sipLoop_fst, sipLoop_snd]
    simp only [List.map_cons, List.map_nil, List.append_cancel_left_eq]
    simp only [List.cons.injEq, and_true, SipRow.mk.injEq]
    refine ⟨trivial, by ring, ?_, ?_⟩
    · simp only [sipVal]; ring
    · simp only [sipVal]; ring

lemma sipInvested_eq (inv r infl : ℚ) (m : ℕ) : sipInvested inv r infl m = m * inv :=
  sipLoop_fst inv r infl m

lemma sipValue_eq (inv r infl : ℚ) (m : ℕ) :
    sipValue inv r infl m = sipVal inv (r / 100 / 12) m :=
  sipLoop_snd inv r infl m

/-- Claim C1: each month of the tab-1 SIP loop adds the contribution to the
running invested total; the portfolio value satisfies
value_m = value_{m-1} * (1 + monthlyRate) + contribution with value_0 = 0; the
emitted row for month m carries the inflation-adjusted value
value_m / (1 + monthlyInflation)^m; and the monthly inflation rate is 0 when
the inflation toggle is off. -/
theorem sip_monthly_step (inv r : ℚ) (adj : Bool) (n : ℕ) (m : Fin n) :
    sipValue inv r (inflationRate adj) 0 = 0 ∧
    sipInvested inv r (inflationRate adj) (m.1 + 1) =
      sipInvested inv r (inflationRate adj) m.1 + inv ∧
    sipValue inv r (inflationRate adj) (m.1 + 1) =
      sipValue inv r (inflationRate adj) m.1 * (1 + r / 100 / 12) + inv ∧
    (sipRows inv r (inflationRate adj) n).getD m.1 ⟨0, 0, 0, 0⟩ =
      ⟨m.1 + 1, sipInvested inv r (inflationRate adj) (m.1 + 1),
        sipValue inv r (inflationRate adj) (m.1 + 1),
        sipValue inv r (inflationRate adj) (m.1 + 1) /
          (1 + inflationRate adj / 100 / 12) ^ (m.1 + 1)⟩ ∧
    (adj = false → inflationRate adj / 100 / 12 = 0) := by
  refine ⟨by simp [sipValue, sipLoop], ?_, ?_, ?_, ?_⟩
  · rw [sipInvested_eq, sipInvested_eq]; push_cast; ring
  · rw [sipValue_eq, sipValue_eq]; simp only [sipVal]
  · have hm : m.1 < ((List.range n).map (fun k =>
        (⟨k + 1, ((k : ℚ) + 1) * inv, sipVal inv (r / 100 / 12) (k + 1),
          sipVal inv (r / 100 / 12) (k + 1) /
            (1 + inflationRate adj / 100 / 12) ^ (k + 1)⟩ : SipRow))).length := by
      simpa using m.2
    rw [sipRows, sipLoop_rows, List.getD_eq_getElem _ _ hm, List.getElem_map,
      List.getElem_range]
    simp only [sipInvested_eq, sipValue_eq, SipRow.mk.injEq]
    refine ⟨trivial, by push_cast; ring, trivial, trivial⟩
  · intro h; simp [h, inflationRate]

lemma sipVal_nonneg (inv mr : ℚ) (hinv : 0 ≤ inv) (hmr : 0 ≤ mr) (m : ℕ) :
    0 ≤ sipVal inv mr m := by
  induction m with
  | zero => simp [sipVal]
  | succ k ih => simp only [sipVal]; nlinarith

lemma sipVal_step_le (inv mr : ℚ) (hinv : 0 ≤ inv) (hmr : 0 ≤ mr) (m : ℕ) :
    sipVal inv mr m ≤ sipVal inv mr (m + 1) := by
  have h := sipVal_nonneg inv mr hinv hmr m
  simp only [sipVal]; nlinarith

lemma sipVal_ge_invested (inv mr : ℚ) (hinv : 0 ≤ inv) (hmr : 0 ≤ mr) (m : ℕ) :
    inv * m ≤ sipVal inv mr m := by
  induction m with
  | zero => simp [sipVal]
  | succ k ih =>
    have h := sipVal_nonneg inv mr hinv hmr k
    simp only [sipVal]
    push_cast
    nlinarith

/-- Claim C7: the invested total after n months is exactly contribution * n and
is strictly increasing month over month; when the annual rate is nonnegative
the portfolio value is monotonically non-decreasing and the final value is at
least the final invested amount. -/
theorem sip_invariants (inv r infl : ℚ) (n : ℕ) (hinv : 0 < inv) :
    sipInvested inv r infl n = inv * n ∧
    (∀ m : ℕ, sipInvested inv r infl m < sipInvested inv r infl (m + 1)) ∧
    (0 ≤ r → ∀ m : ℕ, sipValue inv r infl m ≤ sipValue inv r infl (m + 1)) ∧
    (0 ≤ r → inv * n ≤ sipValue inv r infl n) := by
  have hmr : (0:ℚ) ≤ r → 0 ≤ r / 100 / 12 := fun h => by positivity
  refine ⟨by rw [sipInvested_eq]; ring, ?_, ?_, ?_⟩
  · intro m
    rw [sipInvested_eq, sipInvested_eq]
    push_cast
    nlinarith
  · intro hr m
    rw [sipValue_eq, sipValue_eq]
    exact sipVal_step_le inv _ hinv.le (hmr hr) m
  · intro hr
    rw [sipValue_eq]
    exact sipVal_ge_invested inv _ hinv.le (hmr hr) n

/-- Witness for sip_invariants: contribution 1, annual rate 12 percent,
2 months. -/
theorem sip_invariants_witness :
    (0:ℚ) < 1 ∧
    (sipInvested 1 12 0 2 = 1 * ((2 : ℕ) : ℚ) ∧
      (∀ m : ℕ, sipInvested 1 12 0 m < sipInvested 1 12 0 (m + 1)) ∧
      ((0:ℚ) ≤ 12 → ∀ m : ℕ, sipValue 1 12 0 m ≤ sipValue 1 12 0 (m + 1)) ∧
      ((0:ℚ) ≤ 12 → 1 * ((2 : ℕ) : ℚ) ≤ sipValue 1 12 0 2)) :=
  ⟨by norm_num, sip_invariants 1 12 0 2 (by norm_num)⟩

lemma sipVal_closed (inv mr : ℚ) (h : mr ≠ 0) (n : ℕ) :
    sipVal inv mr n = inv * (((1 + mr) ^ n - 1) / mr) := by
  induction n with
  | zero => simp [sipVal]
  | succ k ih =>
    simp only [sipVal, ih, pow_succ]
    field_simp
    ring

/-- Claim C10: the SIP loop's final nominal value equals the ordinary-annuity
closed form c * (((1+r)^n - 1)/r), and the tab-3/tab-4 annuity-due expression
at the same monthly rate is exactly that value compounded one extra period,
i.e. multiplied by (1 + r). -/
theorem sip_closed_form (inv R infl : ℚ) (n : ℕ) (hc : 0 < inv)
    (hr : 0 < R / 100 / 12) (hn : 1 ≤ n) :
    sipValue inv R infl n = inv * (((1 + R / 100 / 12) ^ n - 1) / (R / 100 / 12)) ∧
    fvAnnuityDue inv (R / 100 / 12) (n : ℤ) =
      some (sipValue inv R infl n * (1 + R / 100 / 12)) := by
  have hne : R / 100 / 12 ≠ 0 := ne_of_gt hr
  have h1 := sipVal_closed inv (R / 100 / 12) hne n
  refine ⟨by rw [sipValue_eq]; exact h1, ?_⟩
  unfold fvAnnuityDue
  rw [if_neg hne, if_neg (fun hand => absurd hand.2 (not_lt.mpr (Int.natCast_nonneg n)))]
  rw [sipValue_eq, h1, zpow_natCast]

/-- Witness for sip_closed_form: contribution 1, annual rate 12 percent,
1 month. -/
theorem sip_closed_form_witness :
    (0:ℚ) < 1 ∧ (0:ℚ) < 12 / 100 / 12 ∧ (1:ℕ) ≤ 1 ∧
    (sipValue 1 12 0 1 =
        1 * (((1 + 12 / 100 / 12) ^ (1:ℕ) - 1) / (12 / 100 / 12)) ∧
      fvAnnuityDue 1 (12 / 100 / 12) ((1:ℕ) : ℤ) =
        some (sipValue 1 12 0 1 * (1 + 12 / 100 / 12))) :=
  ⟨by norm_num, by norm_num, le_refl 1,
    sip_closed_form 1 12 0 1 (by norm_num) (by norm_num) (le_refl 1)⟩

/-- Claim C4 counterexample: evaluating the annuity-due computation at
rate 0 is a ZeroDivisionError (modelled as none), not the special-cased
value c * n: at c = 100, n = 12 the result is an error, not some 1200. -/
theorem fv_rate_zero_cex :
    fvAnnuityDue 100 0 12 = none ∧ fvAnnuityDue 100 0 12 ≠ some (100 * 12) := by
  constructor <;> simp [fvAnnuityDue]

/-- Claim C4 (amended): the source does not special-case rate 0; for every
contribution and period count the rate-0 evaluation of the annuity-due
formula fails with a division-by-zero error, modelled as none. -/
theorem fv_rate_zero_none (c : ℚ) (n : ℤ) : fvAnnuityDue c 0 n = none := by
  simp [fvAnnuityDue]

lemma mcPathAux_length (inv : ℚ) (rets : List ℚ) :
    ∀ c : ℚ, (mcPathAux inv c rets).length = rets.length := by
  induction rets with
  | nil => intro c; simp [mcPathAux]
  | cons r rs ih => intro c; simp [mcPathAux, ih]

lemma mcPathAux_step (inv : ℚ) (rets : List ℚ) :
    ∀ (c : ℚ) (k : Fin rets.length),
      (c :: mcPathAux inv c rets).getD (k.1 + 1) 0 =
        ((c :: mcPathAux inv c rets).getD k.1 0 + inv) * (1 + rets.get k) := by
  induction rets with
  | nil => intro c k; exact absurd k.2 (by simp)
  | cons r rs ih =>
    intro c k
    match k with
    | ⟨0, _⟩ => simp [mcPathAux]
    | ⟨j + 1, hj⟩ =>
      have h := ih ((c + inv) * (1 + r)) ⟨j, by simpa using hj⟩
      simpa [mcPathAux, List.getD_cons_succ] using h

lemma mcPathAux_last (inv : ℚ) (rets : List ℚ) :
    ∀ c : ℚ, (c :: mcPathAux inv c rets).getLast? =
      some (rets.foldl (fun curr ret => (curr + inv) * (1 + ret)) c) := by
  induction rets with
  | nil => intro c; simp [mcPathAux]
  | cons r rs ih =>
    intro c
    simp only [mcPathAux, List.foldl_cons]
    rw [List.getLast?_cons_cons]
    exact ih ((c + inv) * (1 + r))

/-- Claim C2: the Monte Carlo monthly mean is avgReturn/100/12 and the monthly
standard deviation is volatility/(100 * sqrt 12); each path starts at value 0,
each step applies value = (value + contribution) * (1 + r) for the drawn
return r, the recorded path has length months + 1 including the initial 0, and
the terminal value appended to final_values is the last element of the path. -/
theorem mc_path_spec (mcInv : ℚ) (rets : List ℚ) :
    (mcPath mcInv rets).length = rets.length + 1 ∧
    (mcPath mcInv rets).getD 0 0 = 0 ∧
    (∀ k : Fin rets.length,
      (mcPath mcInv rets).getD (k.1 + 1) 0 =
        ((mcPath mcInv rets).getD k.1 0 + mcInv) * (1 + rets.get k)) ∧
    (mcPath mcInv rets).getLast? = some (mcFinal mcInv rets) ∧
    (∀ avg : ℚ, monthlyMean avg = avg / 100 / 12) ∧
    (∀ vol : ℝ, monthlyStd vol = vol / (100 * Real.sqrt 12)) := by
  refine ⟨by simp [mcPath, mcPathAux_length], by simp [mcPath], ?_, ?_,
    fun avg => rfl, fun vol => by rw [monthlyStd, div_div]⟩
  · intro k
    exact mcPathAux_step mcInv rets 0 k
  · exact mcPathAux_last mcInv rets 0

lemma foldl_min_le_init (xs : List ℚ) (a : ℚ) : xs.foldl min a ≤ a := by
  induction xs generalizing a with
  | nil => simp
  | cons y ys ih => exact le_trans (ih (min a y)) (min_le_left a y)

lemma foldl_min_le_mem (xs : List ℚ) (a x : ℚ) (hx : x ∈ xs) : xs.foldl min a ≤ x := by
  induction xs generalizing a with
  | nil => cases hx
  | cons y ys ih =>
    rcases List.mem_cons.mp hx with h | h
    · subst h
      exact le_trans (foldl_min_le_init ys (min a x)) (min_le_right a x)
    · exact ih (min a y) h

lemma init_le_foldl_max (xs : List ℚ) (a : ℚ) : a ≤ xs.foldl max a := by
  induction xs generalizing a with
  | nil => simp
  | cons y ys ih => exact le_trans (le_max_left a y) (ih (max a y))

lemma mem_le_foldl_max (xs : List ℚ) (a x : ℚ) (hx : x ∈ xs) : x ≤ xs.foldl max a := by
  induction xs generalizing a with
  | nil => cases hx
  | cons y ys ih =>
    rcases List.mem_cons.mp hx with h | h
    · subst h
      exact le_trans (le_max_right a x) (init_le_foldl_max ys (max a x))
    · exact ih (max a y) h

lemma pyMin_le_mem (l : List ℚ) (x : ℚ) (hx : x ∈ l) : pyMin l ≤ x := by
  cases l with
  | nil => cases hx
  | cons y ys =>
    rcases List.mem_cons.mp hx with h | h
    · subst h; exact foldl_min_le_init ys x
    · exact foldl_min_le_mem ys y x h

lemma mem_le_pyMax (l : List ℚ) (x : ℚ) (hx : x ∈ l) : x ≤ pyMax l := by
  cases l with
  | nil => cases hx
  | cons y ys =>
    rcases List.mem_cons.mp hx with h | h
    · subst h; exact init_le_foldl_max ys x
    · exact mem_le_foldl_max ys y x h

lemma getD_mem (l : List ℚ) (k : ℕ) (h : k < l.length) : l.getD k 0 ∈ l := by
  rw [List.getD_eq_getElem l 0 h]
  exact List.getElem_mem h

/-- Claim C3: over any 50 terminal values, min <= median <= max, and the
median is the average of the two middle elements (indices 24 and 25) of the
ascending sort. -/
theorem mc_summary_stats (l : List ℚ) (h : l.length = 50) :
    pyMin l ≤ npMedian l ∧ npMedian l ≤ pyMax l ∧
    npMedian l = ((List.insertionSort (· ≤ ·) l).getD 24 0 +
      (List.insertionSort (· ≤ ·) l).getD 25 0) / 2 := by
  have hs : (List.insertionSort (· ≤ ·) l).length = 50 := by
    rw [List.length_insertionSort]; exact h
  have h24 : (List.insertionSort (· ≤ ·) l).getD 24 0 ∈ l :=
    (List.perm_insertionSort (· ≤ ·) l).mem_iff.mp
      (getD_mem _ 24 (by rw [hs]; norm_num))
  have h25 : (List.insertionSort (· ≤ ·) l).getD 25 0 ∈ l :=
    (List.perm_insertionSort (· ≤ ·) l).mem_iff.mp
      (getD_mem _ 25 (by rw [hs]; norm_num))
  have hmed : npMedian l = ((List.insertionSort (· ≤ ·) l).getD 24 0 +
      (List.insertionSort (· ≤ ·) l).getD 25 0) / 2 := by
    simp only [npMedian, h]
    norm_num
  refine ⟨?_, ?_, hmed⟩
  · rw [hmed]
    have a1 := pyMin_le_mem l _ h24
    have a2 := pyMin_le_mem l _ h25
    linarith
  · rw [hmed]
    have a1 := mem_le_pyMax l _ h24
    have a2 := mem_le_pyMax l _ h25
    linarith

/-- Witness for mc_summary_stats on a concrete list of 50 values. -/
theorem mc_summary_stats_witness :
    (List.replicate 50 (1:ℚ)).length = 50 ∧
    (pyMin (List.replicate 50 (1:ℚ)) ≤ npMedian (List.replicate 50 (1:ℚ)) ∧
      npMedian (List.replicate 50 (1:ℚ)) ≤ pyMax (List.replicate 50 (1:ℚ)) ∧
      npMedian (List.replicate 50 (1:ℚ)) =
        ((List.insertionSort (· ≤ ·) (List.replicate 50 (1:ℚ))).getD 24 0 +
          (List.insertionSort (· ≤ ·) (List.replicate 50 (1:ℚ))).getD 25 0) / 2) :=
  ⟨by simp, mc_summary_stats _ (by simp)⟩

lemma fvAnnuityDue_some (c r : ℚ) (hr : r ≠ 0) {n : ℤ} (hn : 0 ≤ n) :
    fvAnnuityDue c r n = some (c * (((1 + r) ^ n - 1) / r) * (1 + r)) := by
  unfold fvAnnuityDue
  rw [if_neg hr, if_neg (fun hand => absurd hand.2 (not_lt.mpr hn))]

/-- Claim C5 counterexample: the tab-3 computation performs no validation; at
delay = duration = 10 years (both reachable from the sliders) it succeeds
instead of failing, silently producing corpus_b = 0. -/
theorem delay_no_validation_cex :
    (computeDelayCost 25000 12 10 10).isSome = true ∧
    Option.map (fun t => t.2.1) (computeDelayCost 25000 12 10 10) = some 0 := by
  have hr : (12:ℚ) / 100 / 12 ≠ 0 := by norm_num
  have ha := fvAnnuityDue_some 25000 ((12:ℚ) / 100 / 12) hr
    (n := (10:ℤ) * 12) (by norm_num)
  have hb := fvAnnuityDue_some 25000 ((12:ℚ) / 100 / 12) hr
    (n := ((10:ℤ) - 10) * 12) (by norm_num)
  constructor
  · simp only [computeDelayCost]
    rw [ha, hb]
    rfl
  · simp only [computeDelayCost]
    rw [ha, hb]
    norm_num

/-- Claim C5 (amended): no calculator validates its inputs; in particular with
delayYears = totalDurationYears the delay-cost computation silently returns a
result whose corpus_b is 0, rather than failing on delay >= duration. -/
theorem delay_no_validation (inv ret : ℚ) (dur : ℤ) (hd : 0 ≤ dur)
    (hr : ret / 100 / 12 ≠ 0) :
    ∃ corpusA, fvAnnuityDue inv (ret / 100 / 12) (dur * 12) = some corpusA ∧
      computeDelayCost inv ret dur dur = some (corpusA, 0, corpusA) := by
  have ha := fvAnnuityDue_some inv (ret / 100 / 12) hr
    (n := dur * 12) (by positivity)
  have hb := fvAnnuityDue_some inv (ret / 100 / 12) hr
    (n := (dur - dur) * 12) (by simp)
  have hb0 : fvAnnuityDue inv (ret / 100 / 12) ((dur - dur) * 12) = some 0 := by
    rw [hb, sub_self, zero_mul, zpow_zero]
    norm_num
  refine ⟨_, ha, ?_⟩
  simp only [computeDelayCost]
  rw [ha, hb0]
  simp

/-- Witness for delay_no_validation at contribution 25000, rate 12 percent,
duration = delay = 10 years. -/
theorem delay_no_validation_witness :
    (0:ℤ) ≤ 10 ∧ ((12:ℚ) / 100 / 12 ≠ 0) ∧
    (∃ corpusA, fvAnnuityDue 25000 ((12:ℚ) / 100 / 12) (10 * 12) = some corpusA ∧
      computeDelayCost 25000 12 10 10 = some (corpusA, 0, corpusA)) :=
  ⟨by norm_num, by norm_num, delay_no_validation 25000 12 10 (by norm_num) (by norm_num)⟩

lemma fv_formula_lt (c r : ℚ) (hc : 0 < c) (hr : 0 < r) {m n : ℤ} (h : m < n) :
    c * (((1 + r) ^ m - 1) / r) * (1 + r) <
      c * (((1 + r) ^ n - 1) / r) * (1 + r) := by
  have h1 : (1:ℚ) < 1 + r := by linarith
  have hp : (1 + r) ^ m < (1 + r) ^ n := zpow_lt_zpow_right₀ h1 h
  have h1r : (0:ℚ) < 1 + r := by linarith
  have hd : ((1 + r) ^ m - 1) / r < ((1 + r) ^ n - 1) / r :=
    div_lt_div_of_pos_right (by linarith) hr
  exact mul_lt_mul_of_pos_right (mul_lt_mul_of_pos_left hd hc) h1r

/-- Claim C6 (amended): corpus_a is the annuity-due value over duration*12
months, corpus_b over (duration-delay)*12 months at the same monthly rate, and
loss = corpus_a - corpus_b; for positive contribution and positive rate
(rate 0 raises a division error instead) the annuity-due value is strictly
increasing in the period count, so the loss is nonnegative whenever
delay > 0. -/
theorem fv_delay_monotone (inv ret : ℚ) (hc : 0 < inv) (hr : 0 < ret) :
    (∀ n : ℕ, 1 ≤ n → ∃ a b,
      fvAnnuityDue inv (ret / 100 / 12) (n : ℤ) = some a ∧
      fvAnnuityDue inv (ret / 100 / 12) ((n : ℤ) + 1) = some b ∧ a < b) ∧
    (∀ dur delay : ℤ, 0 < delay → delay ≤ dur →
      ∃ a b, computeDelayCost inv ret dur delay = some (a, b, a - b) ∧
        fvAnnuityDue inv (ret / 100 / 12) (dur * 12) = some a ∧
        fvAnnuityDue inv (ret / 100 / 12) ((dur - delay) * 12) = some b ∧
        0 ≤ a - b) := by
  have hmr : (0:ℚ) < ret / 100 / 12 := by positivity
  have hne : ret / 100 / 12 ≠ 0 := ne_of_gt hmr
  constructor
  · intro n hn
    exact ⟨_, _, fvAnnuityDue_some inv _ hne (Int.natCast_nonneg n),
      fvAnnuityDue_some inv _ hne (by positivity),
      fv_formula_lt inv _ hc hmr (lt_add_one _)⟩
  · intro dur delay hdel hle
    have hbA : (0:ℤ) ≤ dur * 12 := by omega
    have hbB : (0:ℤ) ≤ (dur - delay) * 12 := by omega
    have hlt : (dur - delay) * 12 < dur * 12 := by omega
    have ha := fvAnnuityDue_some inv _ hne hbA
    have hb := fvAnnuityDue_some inv _ hne hbB
    refine ⟨_, _, ?_, ha, hb, ?_⟩
    · simp only [computeDelayCost]
      rw [ha, hb]
    · have hab := fv_formula_lt inv _ hc hmr hlt
      linarith

/-- Witness for fv_delay_monotone at contribution 25000, rate 12 percent. -/
theorem fv_delay_monotone_witness :
    (0:ℚ) < 25000 ∧ (0:ℚ) < 12 ∧
    ((∀ n : ℕ, 1 ≤ n → ∃ a b,
      fvAnnuityDue 25000 ((12:ℚ) / 100 / 12) (n : ℤ) = some a ∧
      fvAnnuityDue 25000 ((12:ℚ) / 100 / 12) ((n : ℤ) + 1) = some b ∧ a < b) ∧
    (∀ dur delay : ℤ, 0 < delay → delay ≤ dur →
      ∃ a b, computeDelayCost 25000 12 dur delay = some (a, b, a - b) ∧
        fvAnnuityDue 25000 ((12:ℚ) / 100 / 12) (dur * 12) = some a ∧
        fvAnnuityDue 25000 ((12:ℚ) / 100 / 12) ((dur - delay) * 12) = some b ∧
        0 ≤ a - b)) :=
  ⟨by norm_num, by norm_num, fv_delay_monotone 25000 12 (by norm_num) (by norm_num)⟩

/-- Claim C8: the goal-gap computation returns
futureCost = currentCost * (1 + itemInflation/100)^years, futureSavings by the
annuity-due formula over years*12 months, gap = futureSavings - futureCost,
and the affordability verdict holds iff gap >= 0; at currentCost 4000000,
inflation 5 percent, 5 years the futureCost component is
4000000 * (1 + 5/100)^5. -/
theorem goal_gap_spec (cost infl savings ret : ℚ) (years : ℕ)
    (hr : ret / 100 / 12 ≠ 0) :
    (∃ fc fs gap aff,
      computeGoalGap cost (years : ℤ) infl savings ret = some (fc, fs, gap, aff) ∧
      fc = cost * (1 + infl / 100) ^ (years : ℤ) ∧
      fvAnnuityDue savings (ret / 100 / 12) ((years : ℤ) * 12) = some fs ∧
      gap = fs - fc ∧
      (aff = true ↔ 0 ≤ gap)) ∧
    Option.map (fun t => t.1) (computeGoalGap 4000000 ((5 : ℕ) : ℤ) 5 savings ret) =
      some (4000000 * (1 + 5 / 100) ^ ((5 : ℕ) : ℤ)) := by
  have hfs := fvAnnuityDue_some savings (ret / 100 / 12) hr
    (n := (years : ℤ) * 12) (by positivity)
  constructor
  · refine ⟨cost * (1 + infl / 100) ^ (years : ℤ),
      savings * (((1 + ret / 100 / 12) ^ ((years : ℤ) * 12) - 1) / (ret / 100 / 12)) *
        (1 + ret / 100 / 12),
      savings * (((1 + ret / 100 / 12) ^ ((years : ℤ) * 12) - 1) / (ret / 100 / 12)) *
          (1 + ret / 100 / 12) - cost * (1 + infl / 100) ^ (years : ℤ),
      decide (0 ≤ savings * (((1 + ret / 100 / 12) ^ ((years : ℤ) * 12) - 1) /
          (ret / 100 / 12)) * (1 + ret / 100 / 12) -
        cost * (1 + infl / 100) ^ (years : ℤ)),
      ?_, rfl, hfs, rfl, ?_⟩
    · simp only [computeGoalGap]
      rw [hfs]
      rfl
    · exact decide_eq_true_iff
  · have hfs5 := fvAnnuityDue_some savings (ret / 100 / 12) hr
      (n := ((5 : ℕ) : ℤ) * 12) (by positivity)
    simp only [computeGoalGap]
    rw [hfs5]
    rfl

/-- Witness for goal_gap_spec at the spec's example inputs. -/
theorem goal_gap_spec_witness :
    ((10:ℚ) / 100 / 12 ≠ 0) ∧
    ((∃ fc fs gap aff,
      computeGoalGap 4000000 ((5 : ℕ) : ℤ) 5 50000 10 = some (fc, fs, gap, aff) ∧
      fc = 4000000 * (1 + 5 / 100) ^ ((5 : ℕ) : ℤ) ∧
      fvAnnuityDue 50000 ((10:ℚ) / 100 / 12) (((5 : ℕ) : ℤ) * 12) = some fs ∧
      gap = fs - fc ∧
      (aff = true ↔ 0 ≤ gap)) ∧
    Option.map (fun t => t.1) (computeGoalGap 4000000 ((5 : ℕ) : ℤ) 5 50000 10) =
      some (4000000 * (1 + 5 / 100) ^ ((5 : ℕ) : ℤ))) :=
  ⟨by norm_num, goal_gap_spec 4000000 5 50000 10 5 (by norm_num)⟩

lemma mcFinal_replicate (inv r : ℚ) (n : ℕ) :
    mcFinal inv (List.replicate n r) = sipVal inv r n * (1 + r) := by
  induction n with
  | zero => simp [mcFinal, sipVal]
  | succ k ih =>
    have ih' : List.foldl (fun curr ret => (curr + inv) * (1 + ret)) 0
        (List.replicate k r) = sipVal inv r k * (1 + r) := ih
    simp only [mcFinal, List.replicate_succ', List.foldl_append, List.foldl_cons,
      List.foldl_nil, ih']
    simp only [sipVal]

/-- Claim C9 counterexample: with volatility 0 every drawn return equals the
monthly mean; at contribution 1, mean annual return 12 percent, 5 years, the
common Monte Carlo terminal value differs from the tab-1 SIP deterministic
value at the same monthly rate, contribution and duration. -/
theorem mc_zero_vol_cex :
    mcFinal 1 (List.replicate (5 * 12) (monthlyMean 12)) ≠
      sipValue 1 12 0 (5 * 12) := by
  rw [mcFinal_replicate, sipValue_eq]
  show sipVal 1 (12 / 100 / 12) (5 * 12) * (1 + 12 / 100 / 12) ≠
    sipVal 1 (12 / 100 / 12) (5 * 12)
  have hge : (1:ℚ) * ((5 * 12 : ℕ) : ℚ) ≤ sipVal 1 (12 / 100 / 12) (5 * 12) :=
    sipVal_ge_invested 1 (12 / 100 / 12) (by norm_num) (by norm_num) (5 * 12)
  intro heq
  norm_num at heq hge
  linarith

/-- Claim C9 (amended): with volatility 0 all 50 simulations share one
deterministic terminal value, and that value equals the tab-1 SIP
deterministic result at the same monthly rate compounded one extra period,
i.e. multiplied by (1 + monthlyMean) - the Monte Carlo recurrence credits the
landing month's contribution with interest while the SIP loop does not. -/
theorem mc_zero_vol_det (mcInv avg infl : ℚ) (years : ℕ) :
    (∀ x ∈ List.replicate 50
        (mcFinal mcInv (List.replicate (years * 12) (monthlyMean avg))),
      x = mcFinal mcInv (List.replicate (years * 12) (monthlyMean avg))) ∧
    mcFinal mcInv (List.replicate (years * 12) (monthlyMean avg)) =
      sipValue mcInv avg infl (years * 12) * (1 + monthlyMean avg) := by
  refine ⟨fun x hx => List.eq_of_mem_replicate hx, ?_⟩
  rw [mcFinal_replicate, sipValue_eq]
  rfl

/-- Claim C6 counterexample: the claim admits rate >= 0, but at rate 0 (a
positive contribution, duration 20, delay 5) the delay-cost computation is a
division error, so no loss exists and the annuity-due value is not increasing
in the period count there - the values do not exist at all. -/
theorem fv_delay_rate_zero_cex :
    computeDelayCost 25000 0 20 5 = none ∧
    ¬ ∃ a b, fvAnnuityDue 25000 0 1 = some a ∧
      fvAnnuityDue 25000 0 2 = some b ∧ a < b := by
  constructor
  · simp [computeDelayCost, fvAnnuityDue]
  · simp [fvAnnuityDue]
